import Mathlib

/-!
Verification of the datetime format-string compiler
(`format_string_parser.py` of PASTAplus/pastaplus_utilities).

The development shallow-embeds:
* the PEG grammar and its ordered-choice/sequence/optional combinators
  (`parsimonious` semantics: a terminal is atomic, an ordered choice commits
  to its first succeeding alternative, `Grammar.parse` additionally demands
  that the whole input be consumed);
* the bottom-up translation of a parse into a regular-expression string
  (the `FormatStringFormatter` visitor, one emitted fragment per rule);
* the batch driver `main` (strip each line, split on commas, translate the
  first field, write `stripped_line,regex`; an uncaught parse error aborts
  the loop);
* an executable semantics for the subset of regular-expression syntax the
  translator emits (literals, `\d`, escaped metacharacters, character
  classes `[a-b]`, groups of alternatives, `^`/`$` anchoring), used to state
  what the derived regexes match.

Machine strings are modelled as `String`/`List Char`; `\d`, `\s` and
`str.strip` are modelled over their ASCII meanings, which cover every
character the grammar and the claims involve.
-/

namespace FormatStringParser

/-- ASCII whitespace as recognised by Python's `str.strip` and `\s`:
space, tab, newline, carriage return, vertical tab, form feed. -/
def isPySpace (c : Char) : Bool :=
  c = ' ' || c = '\t' || c = '\n' || c = '\r' || c = '\x0b' || c = '\x0c'

/-- Python `str.strip()`: drop leading and trailing whitespace. -/
def pyStrip (s : String) : String :=
  String.mk (((s.toList.dropWhile isPySpace).reverse.dropWhile isPySpace).reverse)

/-! ### The translator's terminal emissions (`FormatStringFormatter.visit_*`) -/

/-- Emission of `visit_year`: regex fragment for the `YYYY` placeholder. -/
def visit_year : String := "(\\d\\d\\d\\d)"

/-- Emission of `visit_month`: regex fragment for the `MM` placeholder. -/
def visit_month : String := "(01|02|03|04|05|06|07|08|09|10|11|12)"

/-- Emission of `visit_dayOfMonth`: regex fragment for the `DD` placeholder. -/
def visit_dayOfMonth : String := "(0[1-9]|[1-2]\\d|30|31)"

/-- Emission of `visit_hours`: regex fragment for the `hh` placeholder. -/
def visit_hours : String := "([0-1]\\d|2[0-4])"

/-- Emission of `visit_minutes`: regex fragment for the `mm` placeholder. -/
def visit_minutes : String := "([0-5]\\d)"

/-- Emission of `visit_wholeSeconds`: regex fragment for the `ss` placeholder. -/
def visit_wholeSeconds : String := "([0-5]\\d)"

/-- Emission of `visit_fractionalSeconds`: regex fragment for the `.sss` placeholder. -/
def visit_fractionalSeconds : String := "(\\.\\d\\d\\d)"

/-- Emission of `visit_dayOfYear`: regex fragment for the `DDD` placeholder. -/
def visit_dayOfYear : String := "[0-3]\\d\\d"

/-! ### The PEG parser

A parser takes the remaining input and returns the translated fragment for
the matched rule together with the unconsumed suffix (`none` on failure).
Sequence rules whose visitor is `''.join(visited_children)` are embedded by
concatenating the children's fragments. -/

/-- A parsimonious rule: input suffix to translated fragment and rest. -/
abbrev P := List Char → Option (String × List Char)

/-- A literal terminal (`"YYYY"`, `"MM"`, …) emitting a fixed fragment. -/
def pTok (tok : List Char) (out : String) : P := fun s =>
  if tok.isPrefixOf s then some (out, s.drop tok.length) else none

/-- An optional single-character terminal (`~"-?"`, `~":?"`, `~"Z?"`);
its visitor emits the matched text (`node.text`) verbatim. -/
def pOpt (c : Char) : P := fun s =>
  match s with
  | x :: rest => if x = c then some (String.singleton x, rest) else some ("", s)
  | [] => some ("", [])

/-- Sequence of two rules; fragments are concatenated (`''.join`). -/
def pSeq (p q : P) : P := fun s =>
  match p s with
  | some (a, s1) =>
    match q s1 with
    | some (b, s2) => some (a ++ b, s2)
    | none => none
  | none => none

/-- Ordered choice: commit to the first alternative that succeeds. -/
def pAlt (p q : P) : P := fun s =>
  match p s with
  | some r => some r
  | none => q s

/-- Rule `year = "YYYY"`. -/
def year_p : P := pTok ['Y', 'Y', 'Y', 'Y'] visit_year

/-- Rule `month = "MM"`. -/
def month_p : P := pTok ['M', 'M'] visit_month

/-- Rule `dayOfMonth = "DD"`. -/
def dayOfMonth_p : P := pTok ['D', 'D'] visit_dayOfMonth

/-- Rule `dayOfYear = "DDD"`. -/
def dayOfYear_p : P := pTok ['D', 'D', 'D'] visit_dayOfYear

/-- Rule `hours = "hh"`. -/
def hours_p : P := pTok ['h', 'h'] visit_hours

/-- Rule `minutes = "mm"`. -/
def minutes_p : P := pTok ['m', 'm'] visit_minutes

/-- Rule `wholeSeconds = "ss"`. -/
def wholeSeconds_p : P := pTok ['s', 's'] visit_wholeSeconds

/-- Rule `fractionalSeconds = ".sss"`. -/
def fractionalSeconds_p : P := pTok ['.', 's', 's', 's'] visit_fractionalSeconds

/-- Rule `dateDash = ~"-?"`; `visit_dateDash` returns `node.text`. -/
def dateDash_p : P := pOpt '-'

/-- Rule `timeColon = ~":?"`; `visit_timeColon` returns `node.text`. -/
def timeColon_p : P := pOpt ':'

/-- Rule `Z = ~"Z?"`; `visit_Z` returns `node.text`. -/
def Z_p : P := pOpt 'Z'

/-- Rule `T = ~r"[T\s]?"`: zero or one character that is `T` or whitespace;
`visit_T` returns `node.text`. -/
def T_p : P := fun s =>
  match s with
  | x :: rest =>
    if x = 'T' || isPySpace x then some (String.singleton x, rest) else some ("", s)
  | [] => some ("", [])

/-- Rule `offsetOperator = ~r"[+-]"`; its visitor emits a backslash followed
by the matched sign. -/
def offsetOperator_p : P := fun s =>
  match s with
  | x :: rest =>
    if x = '+' || x = '-' then some ("\\" ++ String.singleton x, rest) else none
  | [] => none

/-- Rule `monthBasedDate = year dateDash month dateDash dayOfMonth`. -/
def monthBasedDate_p : P :=
  pSeq year_p (pSeq dateDash_p (pSeq month_p (pSeq dateDash_p dayOfMonth_p)))

/-- Rule `dayBasedDate = year dateDash dayOfYear`. -/
def dayBasedDate_p : P := pSeq year_p (pSeq dateDash_p dayOfYear_p)

/-- Rule `yearMonth = year dateDash month`. -/
def yearMonth_p : P := pSeq year_p (pSeq dateDash_p month_p)

/-- Rule `secondsWithFraction = wholeSeconds fractionalSeconds`. -/
def secondsWithFraction_p : P := pSeq wholeSeconds_p fractionalSeconds_p

/-- Rule `secondsWithOutFraction = wholeSeconds`. -/
def secondsWithOutFraction_p : P := wholeSeconds_p

/-- Rule `seconds = secondsWithFraction / secondsWithOutFraction`. -/
def seconds_p : P := pAlt secondsWithFraction_p secondsWithOutFraction_p

/-- Rule `offsetHours = offsetOperator hours`. -/
def offsetHours_p : P := pSeq offsetOperator_p hours_p

/-- Rule `offsetHoursMinutes = offsetOperator hours timeColon minutes`. -/
def offsetHoursMinutes_p : P :=
  pSeq offsetOperator_p (pSeq hours_p (pSeq timeColon_p minutes_p))

/-- Rule `offset = offsetHoursMinutes / offsetHours`. -/
def offset_p : P := pAlt offsetHoursMinutes_p offsetHours_p

/-- Rule `timeNoMinutesNoOffset = hours`. -/
def timeNoMinutesNoOffset_p : P := hours_p

/-- Rule `timeNoMinutesWithOffset = hours offset`. -/
def timeNoMinutesWithOffset_p : P := pSeq hours_p offset_p

/-- Rule `timeNoSecondsNoOffset = hours timeColon minutes`. -/
def timeNoSecondsNoOffset_p : P := pSeq hours_p (pSeq timeColon_p minutes_p)

/-- Rule `timeNoSecondsWithOffset = hours timeColon minutes offset`. -/
def timeNoSecondsWithOffset_p : P :=
  pSeq hours_p (pSeq timeColon_p (pSeq minutes_p offset_p))

/-- Rule `timeNoOffset = hours timeColon minutes timeColon seconds`. -/
def timeNoOffset_p : P :=
  pSeq hours_p (pSeq timeColon_p (pSeq minutes_p (pSeq timeColon_p seconds_p)))

/-- Rule `timeWithOffset = hours timeColon minutes timeColon seconds offset`. -/
def timeWithOffset_p : P :=
  pSeq hours_p (pSeq timeColon_p (pSeq minutes_p (pSeq timeColon_p (pSeq seconds_p offset_p))))

/-- Rule `time`, ordered choice in the grammar's order. -/
def time_p : P :=
  pAlt timeWithOffset_p (pAlt timeNoOffset_p (pAlt timeNoSecondsWithOffset_p
    (pAlt timeNoSecondsNoOffset_p (pAlt timeNoMinutesWithOffset_p timeNoMinutesNoOffset_p))))

/-- Rule `timeZ = time Z`. -/
def timeZ_p : P := pSeq time_p Z_p

/-- Rule `monthBasedDateTime = monthBasedDate T time Z`. -/
def monthBasedDateTime_p : P :=
  pSeq monthBasedDate_p (pSeq T_p (pSeq time_p Z_p))

/-- Rule `dayBasedDateTime = dayBasedDate T time Z`. -/
def dayBasedDateTime_p : P :=
  pSeq dayBasedDate_p (pSeq T_p (pSeq time_p Z_p))

/-- Root rule `validDateTime`, ordered choice in the grammar's order. -/
def validDateTime_p : P :=
  pAlt monthBasedDateTime_p (pAlt dayBasedDateTime_p (pAlt monthBasedDate_p
    (pAlt dayBasedDate_p (pAlt yearMonth_p (pAlt year_p timeZ_p)))))

/-- The function `format_string_visitor`: parse the template against the grammar
(`grammar.parse` demands full consumption, else it raises) and translate,
wrapping the root's fragment in `^`/`$` anchors (`visit_validDateTime`).
`none` models the raised `ParseError`/`IncompleteParseError`. -/
def format_string_visitor (format_string : String) : Option String :=
  match validDateTime_p format_string.toList with
  | some (frag, []) => some ("^" ++ frag ++ "$")
  | _ => none

/-! ### The batch driver `main` -/

/-- Split a character list at every comma (Python `str.split(',')`). -/
def splitOnComma : List Char → List (List Char)
  | [] => [[]]
  | c :: rest =>
    let r := splitOnComma rest
    if c = ',' then [] :: r else (c :: r.headD []) :: r.tail

/-- Python `line.split(',')` over strings. -/
def pySplit (s : String) : List String := (splitOnComma s.toList).map String.mk

/-- One iteration of `main`'s loop body: strip the line, split on commas,
translate the first field; on success the written output line is
`stripped_line,regex_result`.  `none` models the uncaught parse error. -/
def processLine (line : String) : Option String :=
  let stripped_line := pyStrip line
  let line_parts := pySplit stripped_line
  let format_string := line_parts.headD ""
  (format_string_visitor format_string).map
    (fun regex_result => stripped_line ++ "," ++ regex_result)

/-- The driver loop of `main` over the input lines: returns the output lines
written, and `true` iff the loop ran to completion.  There is no
`try`/`except` in `main`, so a parse failure propagates: the failing line
produces no output and no later line is processed. -/
def main : List String → List String × Bool
  | [] => ([], true)
  | line :: rest =>
    match processLine line with
    | some out =>
      let p := main rest
      (out :: p.1, p.2)
    | none => ([], false)

/-! ### Semantics of the emitted regular expressions

The translator only ever emits: literal characters, `\d`, the escaped
metacharacters `\.`, `\+`, `\-`, character classes `[a-b]`, and
non-nested groups of alternatives `(x|y|...)`, wrapped in `^`/`$`.
We parse exactly this subset into a small AST and give it the standard
full-match semantics; any construct outside the subset is refused. -/

/-- A single-character regex atom. -/
inductive RAtom where
  | lit (c : Char)
  | digit
  | cls (lo hi : Char)
deriving DecidableEq, Repr

/-- A regex item: an atom, or a group of alternative atom sequences. -/
inductive RItem where
  | atom (a : RAtom)
  | group (alts : List (List RAtom))
deriving DecidableEq, Repr

/-- Regex metacharacters that may not stand bare as literals. -/
def isMeta (c : Char) : Bool :=
  c = '\\' || c = '(' || c = ')' || c = '[' || c = ']' || c = '|' ||
  c = '?' || c = '*' || c = '+' || c = '.' || c = '^' || c = '$' ||
  c.toNat = 123 || c.toNat = 125

/-- Scanner state for an atom spanning several characters: inside an
escape (after `\`), or at one of the four positions inside a class
`[lo-hi]`. -/
inductive Pend where
  | idle
  | esc
  | cls0
  | cls1 (lo : Char)
  | cls2 (lo : Char)
  | cls3 (lo hi : Char)
deriving DecidableEq, Repr

/-- Full scanner state: completed items (reversed), the open group
(current alternative's atoms reversed, completed alternatives) if any,
and the pending multi-character atom. -/
structure ScanState where
  acc : List RItem
  grp : Option (List RAtom × List (List RAtom))
  pend : Pend
deriving DecidableEq, Repr

/-- Record one completed atom: into the open group's current alternative,
or as a top-level item. -/
def pushAtom (st : ScanState) (a : RAtom) : ScanState :=
  match st.grp with
  | none => ⟨.atom a :: st.acc, none, .idle⟩
  | some (cur, alts) => ⟨st.acc, some (a :: cur, alts), .idle⟩

/-- Consume one character of regex text. -/
def step (st : ScanState) (c : Char) : Option ScanState :=
  match st.pend with
  | .esc =>
    if c = 'd' then some (pushAtom st .digit)
    else if c = '.' || c = '+' || c = '-' then some (pushAtom st (.lit c))
    else none
  | .cls0 => some ⟨st.acc, st.grp, .cls1 c⟩
  | .cls1 lo => if c = '-' then some ⟨st.acc, st.grp, .cls2 lo⟩ else none
  | .cls2 lo => some ⟨st.acc, st.grp, .cls3 lo c⟩
  | .cls3 lo hi =>
    if c = ']' then some (pushAtom ⟨st.acc, st.grp, .idle⟩ (.cls lo hi)) else none
  | .idle =>
    if c = '\\' then some ⟨st.acc, st.grp, .esc⟩
    else if c = '[' then some ⟨st.acc, st.grp, .cls0⟩
    else if c = '(' then
      match st.grp with
      | none => some ⟨st.acc, some ([], []), .idle⟩
      | some _ => none
    else if c = ')' then
      match st.grp with
      | none => none
      | some (cur, alts) => some ⟨.group (alts ++ [cur.reverse]) :: st.acc, none, .idle⟩
    else if c = '|' then
      match st.grp with
      | none => none
      | some (cur, alts) => some ⟨st.acc, some ([], alts ++ [cur.reverse]), .idle⟩
    else if isMeta c then none
    else some (pushAtom st (.lit c))

/-- Run the scanner over a character list. -/
def runScan (st : ScanState) : List Char → Option ScanState
  | [] => some st
  | c :: rest =>
    match step st c with
    | some st2 => runScan st2 rest
    | none => none

/-- Accept the final state: no open group, no pending atom. -/
def finishScan (st : ScanState) : Option (List RItem) :=
  match st.grp, st.pend with
  | none, .idle => some st.acc.reverse
  | _, _ => none

/-- Parse a complete regex text (no anchors) as a sequence of items. -/
def parseItems (s : List Char) : Option (List RItem) :=
  match runScan ⟨[], none, .idle⟩ s with
  | some st => finishScan st
  | none => none

/-- Parse an anchored regex `^...$` as produced by the translator. -/
def parseRegexAnchored (r : String) : Option (List RItem) :=
  match r.toList with
  | '^' :: rest =>
    match rest.getLast? with
    | some '$' => parseItems rest.dropLast
    | _ => none
  | _ => none

/-- Does one atom match one character? (`\d` over ASCII digits.) -/
def matchAtom : RAtom → Char → Bool
  | .digit, c => c.isDigit
  | .lit d, c => c = d
  | .cls lo hi, c => lo ≤ c && c ≤ hi

/-- Match a sequence of atoms against a prefix, returning the suffix. -/
def matchAtoms : List RAtom → List Char → Option (List Char)
  | [], s => some s
  | _ :: _, [] => none
  | a :: as, c :: s => if matchAtom a c then matchAtoms as s else none

/-- Full-match a sequence of items against an entire character list. -/
def matchItems : List RItem → List Char → Bool
  | [], s => s.isEmpty
  | .atom a :: rest, s =>
    match s with
    | [] => false
    | c :: s2 => matchAtom a c && matchItems rest s2
  | .group alts :: rest, s =>
    alts.any fun alt =>
      match matchAtoms alt s with
      | some s2 => matchItems rest s2
      | none => false

/-- Does the anchored regex `r` accept the whole instance string? -/
def regexAccepts (r inst : String) : Bool :=
  match parseRegexAnchored r with
  | some items => matchItems items inst.toList
  | none => false

/-- Does the unanchored fragment `frag` accept the whole instance string? -/
def fragAccepts (frag inst : String) : Bool :=
  match parseItems frag.toList with
  | some items => matchItems items inst.toList
  | none => false

/-! ### Structural lemmas about the regex scanner -/


theorem runScan_append (a b : List Char) (st : ScanState) :
    runScan st (a ++ b) = (runScan st a).bind (fun st2 => runScan st2 b) := by
  induction a generalizing st with
  | nil => simp [runScan]
  | cons c t ih =>
    simp only [List.cons_append, runScan]
    cases step st c with
    | none => simp
    | some st2 => simpa using ih st2

theorem step_acc (g : Option (List RAtom × List (List RAtom))) (p : Pend)
    (acc : List RItem) (c : Char) :
    step ⟨acc, g, p⟩ c =
      (step ⟨[], g, p⟩ c).map (fun st2 => ⟨st2.acc ++ acc, st2.grp, st2.pend⟩) := by
  cases p <;>
    simp only [step, pushAtom] <;>
    rcases g with _ | ⟨cur, alts⟩ <;>
    (try split_ifs) <;>
    simp [pushAtom]

theorem runScan_acc (s : List Char) (acc : List RItem)
    (g : Option (List RAtom × List (List RAtom))) (p : Pend) :
    runScan ⟨acc, g, p⟩ s =
      (runScan ⟨[], g, p⟩ s).map (fun st2 => ⟨st2.acc ++ acc, st2.grp, st2.pend⟩) := by
  induction s generalizing acc g p with
  | nil => simp [runScan]
  | cons c t ih =>
    simp only [runScan, step_acc g p acc c]
    cases hs : step ⟨[], g, p⟩ c with
    | none => simp
    | some st2 =>
      obtain ⟨a2, g2, p2⟩ := st2
      simp only [Option.map_some]
      show runScan ⟨a2 ++ acc, g2, p2⟩ t = (runScan ⟨a2, g2, p2⟩ t).map
        (fun st2 => ⟨st2.acc ++ acc, st2.grp, st2.pend⟩)
      rw [ih (a2 ++ acc) g2 p2, ih a2 g2 p2]
      cases runScan ⟨[], g2, p2⟩ t <;> simp

theorem finishScan_eq_some {st : ScanState} {ia : List RItem}
    (h : finishScan st = some ia) : st = ⟨ia.reverse, none, .idle⟩ := by
  obtain ⟨a, g, p⟩ := st
  cases g <;> cases p <;> simp only [finishScan, Option.some.injEq, reduceCtorEq] at h
  subst h
  simp

theorem parseItems_append {a b : List Char} {ia ib : List RItem}
    (ha : parseItems a = some ia) (hb : parseItems b = some ib) :
    parseItems (a ++ b) = some (ia ++ ib) := by
  unfold parseItems at *
  rw [runScan_append]
  cases hra : runScan ⟨[], none, .idle⟩ a with
  | none => rw [hra] at ha; exact absurd ha (by simp)
  | some stA =>
    rw [hra] at ha
    have hstA := finishScan_eq_some ha
    subst hstA
    cases hrb : runScan ⟨[], none, .idle⟩ b with
    | none => rw [hrb] at hb; exact absurd hb (by simp)
    | some stB =>
      rw [hrb] at hb
      have hstB := finishScan_eq_some hb
      subst hstB
      simp only [Option.some_bind]
      rw [runScan_acc b ia.reverse none .idle, hrb]
      simp [finishScan]


theorem matchAtoms_append {alt : List RAtom} {w w2 : List Char}
    (h : matchAtoms alt w = some w2) (t : List Char) :
    matchAtoms alt (w ++ t) = some (w2 ++ t) := by
  induction alt generalizing w with
  | nil =>
    simp only [matchAtoms, Option.some.injEq] at h
    subst h
    simp [matchAtoms]
  | cons a as ih =>
    cases w with
    | nil => exact absurd h (by simp [matchAtoms])
    | cons c w1 =>
      simp only [matchAtoms, List.cons_append] at h ⊢
      split at h
      · rename_i hc
        simp [hc, ih h]
      · exact absurd h (by simp)

theorem matchItems_append {i1 i2 : List RItem} {w1 w2 : List Char}
    (h1 : matchItems i1 w1 = true) (h2 : matchItems i2 w2 = true) :
    matchItems (i1 ++ i2) (w1 ++ w2) = true := by
  induction i1 generalizing w1 with
  | nil =>
    simp only [matchItems, List.isEmpty_iff] at h1
    subst h1
    simpa using h2
  | cons it rest ih =>
    cases it with
    | atom a =>
      cases w1 with
      | nil => exact absurd h1 (by simp [matchItems])
      | cons c w1t =>
        simp only [matchItems, List.cons_append, Bool.and_eq_true] at h1 ⊢
        exact ⟨h1.1, ih h1.2⟩
    | group alts =>
      simp only [matchItems, List.any_eq_true] at h1 ⊢
      obtain ⟨alt, halt, hm⟩ := h1
      refine ⟨alt, halt, ?_⟩
      cases hma : matchAtoms alt w1 with
      | none => rw [hma] at hm; exact absurd hm (by simp)
      | some w1r =>
        rw [hma] at hm
        rw [matchAtoms_append hma w2]
        exact ih hm

/-- Check that `frag` is a regex text whose items accept the instance `w`. -/
def checkFrag (frag w : String) : Bool :=
  match parseItems frag.toList with
  | some items => matchItems items w.toList
  | none => false

/-- A well-formed fragment: it parses as a sequence of items, and some
instance string matches it. -/
def FragOK (frag : String) : Prop :=
  ∃ items w, parseItems frag.toList = some items ∧ matchItems items w = true

theorem fragOK_of_check {f w : String} (h : checkFrag f w = true) : FragOK f := by
  unfold checkFrag at h
  split at h
  · rename_i items heq
    exact ⟨items, w.toList, heq, h⟩
  · exact absurd h (by simp)

theorem string_toList_append (a b : String) : (a ++ b).toList = a.toList ++ b.toList := by
  cases a
  cases b
  simp [String.toList]

theorem fragOK_append {a b : String} (ha : FragOK a) (hb : FragOK b) :
    FragOK (a ++ b) := by
  obtain ⟨ia, wa, hpa, hma⟩ := ha
  obtain ⟨ib, wb, hpb, hmb⟩ := hb
  exact ⟨ia ++ ib, wa ++ wb,
    by rw [string_toList_append]; exact parseItems_append hpa hpb,
    matchItems_append hma hmb⟩

theorem fragOK_empty : FragOK "" := ⟨[], [], by decide, by decide⟩

theorem isMeta_eq_false {c : Char}
    (h : c ≠ '\\' ∧ c ≠ '(' ∧ c ≠ ')' ∧ c ≠ '[' ∧ c ≠ ']' ∧ c ≠ '|' ∧
         c ≠ '?' ∧ c ≠ '*' ∧ c ≠ '+' ∧ c ≠ '.' ∧ c ≠ '^' ∧ c ≠ '$' ∧
         c.toNat ≠ 123 ∧ c.toNat ≠ 125) : isMeta c = false := by
  unfold isMeta
  obtain ⟨h1, h2, h3, h4, h5, h6, h7, h8, h9, h10, h11, h12, h13, h14⟩ := h
  simp [h1, h2, h3, h4, h5, h6, h7, h8, h9, h10, h11, h12, h13, h14]

theorem fragOK_singleton {c : Char} (h : isMeta c = false) :
    FragOK (String.singleton c) := by
  unfold isMeta at h
  simp only [Bool.or_eq_false_iff, decide_eq_false_iff_not] at h
  obtain ⟨⟨⟨⟨⟨⟨⟨⟨⟨⟨⟨⟨⟨h1, h2⟩, h3⟩, h4⟩, h5⟩, h6⟩, h7⟩, h8⟩, h9⟩, h10⟩, h11⟩, h12⟩, h13⟩, h14⟩ := h
  refine ⟨[.atom (.lit c)], [c], ?_, ?_⟩
  · show parseItems [c] = _
    unfold parseItems runScan step
    simp only [h1, h2, h3, h4, h5, h6]
    simp [isMeta, h1, h2, h3, h4, h5, h6, h7, h8, h9, h10, h11, h12, h13, h14,
      pushAtom, runScan, finishScan]
  · simp [matchItems, matchAtoms, matchAtom]


/-! ### Every fragment the translator emits is well-formed and satisfiable -/

/-- Every fragment a rule can emit is a well-formed, satisfiable regex. -/
def POK (p : P) : Prop := ∀ s f r, p s = some (f, r) → FragOK f

theorem pok_pSeq {p q : P} (hp : POK p) (hq : POK q) : POK (pSeq p q) := by
  intro s f r h
  unfold pSeq at h
  cases hps : p s with
  | none =>
    simp only [hps] at h
    exact absurd h (by simp)
  | some v =>
    obtain ⟨a, s1⟩ := v
    simp only [hps] at h
    cases hqs : q s1 with
    | none =>
      simp only [hqs] at h
      exact absurd h (by simp)
    | some w =>
      obtain ⟨b, s2⟩ := w
      simp only [hqs] at h
      cases h
      exact fragOK_append (hp _ _ _ hps) (hq _ _ _ hqs)

theorem pok_pAlt {p q : P} (hp : POK p) (hq : POK q) : POK (pAlt p q) := by
  intro s f r h
  unfold pAlt at h
  cases hps : p s with
  | none => rw [hps] at h; exact hq s f r h
  | some v =>
    obtain ⟨a, s1⟩ := v
    rw [hps] at h
    cases h
    exact hp _ _ _ hps

theorem pok_pTok {tok : List Char} {out : String} (h : FragOK out) :
    POK (pTok tok out) := by
  intro s f r hp
  unfold pTok at hp
  split at hp
  · cases hp
    exact h
  · exact absurd hp (by simp)

theorem pok_pOpt {c : Char} (h : isMeta c = false) : POK (pOpt c) := by
  intro s f r hp
  unfold pOpt at hp
  split at hp
  · rename_i x rest
    split at hp <;> cases hp
    · rename_i hx
      rw [hx]
      exact fragOK_singleton h
    · exact fragOK_empty
  · cases hp
    exact fragOK_empty

theorem isPySpace_not_meta {x : Char} (h : isPySpace x = true) : isMeta x = false := by
  unfold isPySpace at h
  simp only [Bool.or_eq_true, decide_eq_true_eq] at h
  rcases h with ((((h | h) | h) | h) | h) | h <;> subst h <;> decide

theorem pok_T : POK T_p := by
  intro s f r hp
  unfold T_p at hp
  split at hp
  · rename_i x rest
    split at hp <;> cases hp
    · rename_i hx
      simp only [Bool.or_eq_true, decide_eq_true_eq] at hx
      rcases hx with hx | hx
      · subst hx
        exact fragOK_singleton (by decide)
      · exact fragOK_singleton (isPySpace_not_meta hx)
    · exact fragOK_empty
  · cases hp
    exact fragOK_empty

theorem pok_offsetOperator : POK offsetOperator_p := by
  intro s f r hp
  unfold offsetOperator_p at hp
  split at hp
  · rename_i x rest
    split at hp
    · rename_i hx
      cases hp
      simp only [Bool.or_eq_true, decide_eq_true_eq] at hx
      rcases hx with hx | hx <;> subst hx
      · exact fragOK_of_check (w := "+") (by decide)
      · exact fragOK_of_check (w := "-") (by decide)
    · exact absurd hp (by simp)
  · exact absurd hp (by simp)

theorem pok_year : POK year_p := pok_pTok (fragOK_of_check (w := "0000") (by decide))

theorem pok_month : POK month_p := pok_pTok (fragOK_of_check (w := "01") (by decide))

theorem pok_dayOfMonth : POK dayOfMonth_p :=
  pok_pTok (fragOK_of_check (w := "01") (by decide))

theorem pok_dayOfYear : POK dayOfYear_p :=
  pok_pTok (fragOK_of_check (w := "000") (by decide))

theorem pok_hours : POK hours_p := pok_pTok (fragOK_of_check (w := "00") (by decide))

theorem pok_minutes : POK minutes_p := pok_pTok (fragOK_of_check (w := "00") (by decide))

theorem pok_wholeSeconds : POK wholeSeconds_p :=
  pok_pTok (fragOK_of_check (w := "00") (by decide))

theorem pok_fractionalSeconds : POK fractionalSeconds_p :=
  pok_pTok (fragOK_of_check (w := ".000") (by decide))

theorem pok_dateDash : POK dateDash_p := pok_pOpt (by decide)

theorem pok_timeColon : POK timeColon_p := pok_pOpt (by decide)

theorem pok_Z : POK Z_p := pok_pOpt (by decide)

theorem pok_seconds : POK seconds_p :=
  pok_pAlt (pok_pSeq pok_wholeSeconds pok_fractionalSeconds) pok_wholeSeconds

theorem pok_offset : POK offset_p :=
  pok_pAlt
    (pok_pSeq pok_offsetOperator (pok_pSeq pok_hours (pok_pSeq pok_timeColon pok_minutes)))
    (pok_pSeq pok_offsetOperator pok_hours)

theorem pok_time : POK time_p :=
  pok_pAlt
    (pok_pSeq pok_hours (pok_pSeq pok_timeColon (pok_pSeq pok_minutes
      (pok_pSeq pok_timeColon (pok_pSeq pok_seconds pok_offset)))))
    (pok_pAlt
      (pok_pSeq pok_hours (pok_pSeq pok_timeColon (pok_pSeq pok_minutes
        (pok_pSeq pok_timeColon pok_seconds))))
      (pok_pAlt
        (pok_pSeq pok_hours (pok_pSeq pok_timeColon (pok_pSeq pok_minutes pok_offset)))
        (pok_pAlt
          (pok_pSeq pok_hours (pok_pSeq pok_timeColon pok_minutes))
          (pok_pAlt (pok_pSeq pok_hours pok_offset) pok_hours))))

theorem pok_monthBasedDate : POK monthBasedDate_p :=
  pok_pSeq pok_year (pok_pSeq pok_dateDash (pok_pSeq pok_month
    (pok_pSeq pok_dateDash pok_dayOfMonth)))

theorem pok_dayBasedDate : POK dayBasedDate_p :=
  pok_pSeq pok_year (pok_pSeq pok_dateDash pok_dayOfYear)

theorem pok_validDateTime : POK validDateTime_p :=
  pok_pAlt
    (pok_pSeq pok_monthBasedDate (pok_pSeq pok_T (pok_pSeq pok_time pok_Z)))
    (pok_pAlt
      (pok_pSeq pok_dayBasedDate (pok_pSeq pok_T (pok_pSeq pok_time pok_Z)))
      (pok_pAlt pok_monthBasedDate
        (pok_pAlt pok_dayBasedDate
          (pok_pAlt (pok_pSeq pok_year (pok_pSeq pok_dateDash pok_month))
            (pok_pAlt pok_year (pok_pSeq pok_time pok_Z))))))


/-! ### The grammar only consumes characters of its fixed vocabulary -/

/-- The characters any grammar rule can consume: the letters of the
placeholders, the separators and markers, and whitespace (for `T`). -/
def alphaOK (c : Char) : Bool :=
  c = 'Y' || c = 'M' || c = 'D' || c = 'h' || c = 'm' || c = 's' ||
  c = 'T' || c = 'Z' || c = ':' || c = '-' || c = '+' || c = '.' || isPySpace c

/-- Every character a rule consumes is in the grammar's vocabulary. -/
def CONS (p : P) : Prop :=
  ∀ s f r, p s = some (f, r) → ∃ pre, s = pre ++ r ∧ ∀ c ∈ pre, alphaOK c = true

theorem cons_pSeq {p q : P} (hp : CONS p) (hq : CONS q) : CONS (pSeq p q) := by
  intro s f r h
  unfold pSeq at h
  cases hps : p s with
  | none =>
    simp only [hps] at h
    exact absurd h (by simp)
  | some v =>
    obtain ⟨a, s1⟩ := v
    simp only [hps] at h
    cases hqs : q s1 with
    | none =>
      simp only [hqs] at h
      exact absurd h (by simp)
    | some w =>
      obtain ⟨b, s2⟩ := w
      simp only [hqs] at h
      cases h
      obtain ⟨pre1, he1, ha1⟩ := hp _ _ _ hps
      obtain ⟨pre2, he2, ha2⟩ := hq _ _ _ hqs
      refine ⟨pre1 ++ pre2, ?_, ?_⟩
      · rw [he1, he2, List.append_assoc]
      · intro c hc
        rcases List.mem_append.mp hc with hc | hc
        · exact ha1 c hc
        · exact ha2 c hc

theorem cons_pAlt {p q : P} (hp : CONS p) (hq : CONS q) : CONS (pAlt p q) := by
  intro s f r h
  unfold pAlt at h
  cases hps : p s with
  | none => rw [hps] at h; exact hq _ _ _ h
  | some v =>
    obtain ⟨a, s1⟩ := v
    rw [hps] at h
    cases h
    exact hp _ _ _ hps

theorem cons_pTok {tok : List Char} {out : String}
    (htok : ∀ c ∈ tok, alphaOK c = true) : CONS (pTok tok out) := by
  intro s f r hp
  unfold pTok at hp
  split at hp
  · rename_i hpre
    cases hp
    have hyp := List.isPrefixOf_iff_prefix.mp hpre
    obtain ⟨t, ht⟩ := hyp
    refine ⟨tok, ?_, htok⟩
    rw [← ht, List.drop_left]
  · exact absurd hp (by simp)

theorem cons_pOpt {c : Char} (h : alphaOK c = true) : CONS (pOpt c) := by
  intro s f r hp
  unfold pOpt at hp
  split at hp
  · rename_i x rest
    split at hp <;> cases hp
    · rename_i hx
      exact ⟨[x], rfl, by simpa [hx] using h⟩
    · exact ⟨[], rfl, by simp⟩
  · cases hp
    exact ⟨[], rfl, by simp⟩

theorem cons_T : CONS T_p := by
  intro s f r hp
  unfold T_p at hp
  split at hp
  · rename_i x rest
    split at hp <;> cases hp
    · rename_i hx
      refine ⟨[x], rfl, ?_⟩
      intro c hc
      simp only [List.mem_singleton] at hc
      subst hc
      simp only [Bool.or_eq_true, decide_eq_true_eq] at hx
      unfold alphaOK
      rcases hx with hx | hx
      · subst hx; decide
      · simp [hx]
    · exact ⟨[], rfl, by simp⟩
  · cases hp
    exact ⟨[], rfl, by simp⟩

theorem cons_offsetOperator : CONS offsetOperator_p := by
  intro s f r hp
  unfold offsetOperator_p at hp
  split at hp
  · rename_i x rest
    split at hp
    · rename_i hx
      cases hp
      refine ⟨[x], rfl, ?_⟩
      intro c hc
      simp only [List.mem_singleton] at hc
      subst hc
      simp only [Bool.or_eq_true, decide_eq_true_eq] at hx
      rcases hx with hx | hx <;> subst hx <;> decide
    · exact absurd hp (by simp)
  · exact absurd hp (by simp)

theorem cons_year : CONS year_p := cons_pTok (by decide)

theorem cons_month : CONS month_p := cons_pTok (by decide)

theorem cons_dayOfMonth : CONS dayOfMonth_p := cons_pTok (by decide)

theorem cons_dayOfYear : CONS dayOfYear_p := cons_pTok (by decide)

theorem cons_hours : CONS hours_p := cons_pTok (by decide)

theorem cons_minutes : CONS minutes_p := cons_pTok (by decide)

theorem cons_wholeSeconds : CONS wholeSeconds_p := cons_pTok (by decide)

theorem cons_fractionalSeconds : CONS fractionalSeconds_p := cons_pTok (by decide)

theorem cons_dateDash : CONS dateDash_p := cons_pOpt (by decide)

theorem cons_timeColon : CONS timeColon_p := cons_pOpt (by decide)

theorem cons_Z : CONS Z_p := cons_pOpt (by decide)

theorem cons_seconds : CONS seconds_p :=
  cons_pAlt (cons_pSeq cons_wholeSeconds cons_fractionalSeconds) cons_wholeSeconds

theorem cons_offset : CONS offset_p :=
  cons_pAlt
    (cons_pSeq cons_offsetOperator
      (cons_pSeq cons_hours (cons_pSeq cons_timeColon cons_minutes)))
    (cons_pSeq cons_offsetOperator cons_hours)

theorem cons_time : CONS time_p :=
  cons_pAlt
    (cons_pSeq cons_hours (cons_pSeq cons_timeColon (cons_pSeq cons_minutes
      (cons_pSeq cons_timeColon (cons_pSeq cons_seconds cons_offset)))))
    (cons_pAlt
      (cons_pSeq cons_hours (cons_pSeq cons_timeColon (cons_pSeq cons_minutes
        (cons_pSeq cons_timeColon cons_seconds))))
      (cons_pAlt
        (cons_pSeq cons_hours (cons_pSeq cons_timeColon (cons_pSeq cons_minutes cons_offset)))
        (cons_pAlt
          (cons_pSeq cons_hours (cons_pSeq cons_timeColon cons_minutes))
          (cons_pAlt (cons_pSeq cons_hours cons_offset) cons_hours))))

theorem cons_monthBasedDate : CONS monthBasedDate_p :=
  cons_pSeq cons_year (cons_pSeq cons_dateDash (cons_pSeq cons_month
    (cons_pSeq cons_dateDash cons_dayOfMonth)))

theorem cons_dayBasedDate : CONS dayBasedDate_p :=
  cons_pSeq cons_year (cons_pSeq cons_dateDash cons_dayOfYear)

theorem cons_validDateTime : CONS validDateTime_p :=
  cons_pAlt
    (cons_pSeq cons_monthBasedDate (cons_pSeq cons_T (cons_pSeq cons_time cons_Z)))
    (cons_pAlt
      (cons_pSeq cons_dayBasedDate (cons_pSeq cons_T (cons_pSeq cons_time cons_Z)))
      (cons_pAlt cons_monthBasedDate
        (cons_pAlt cons_dayBasedDate
          (cons_pAlt (cons_pSeq cons_year (cons_pSeq cons_dateDash cons_month))
            (cons_pAlt cons_year (cons_pSeq cons_time cons_Z))))))

/-- A successfully translated template consists only of vocabulary characters. -/
theorem fsv_chars_alphaOK {s r : String} (h : format_string_visitor s = some r) :
    ∀ c ∈ s.toList, alphaOK c = true := by
  unfold format_string_visitor at h
  cases hv : validDateTime_p s.toList with
  | none => rw [hv] at h; exact absurd h (by simp)
  | some v =>
    obtain ⟨frag, rest⟩ := v
    rw [hv] at h
    cases rest with
    | nil =>
      obtain ⟨pre, he, ha⟩ := cons_validDateTime _ _ _ hv
      have he2 : s.toList = pre := by simpa using he
      rw [he2]
      exact ha
    | cons c t => exact absurd h (by simp)


/-! ### Character arithmetic: digits and two-digit numerals -/

theorem char_le_iff_toNat {a b : Char} : a ≤ b ↔ a.toNat ≤ b.toNat := by
  rw [Char.le_def, UInt32.le_def, BitVec.le_def]
  rfl

theorem char_eq_of_toNat {a b : Char} (h : a.toNat = b.toNat) : a = b :=
  Char.ext (UInt32.ext h)

theorem isDigit_iff_toNat {c : Char} :
    c.isDigit = true ↔ 48 ≤ c.toNat ∧ c.toNat ≤ 57 := by
  unfold Char.isDigit
  rw [Bool.and_eq_true, decide_eq_true_eq, decide_eq_true_eq]
  constructor
  · rintro ⟨h1, h2⟩
    have g1 : (48 : UInt32) ≤ c.val := h1
    have g2 : c.val ≤ (57 : UInt32) := h2
    rw [UInt32.le_def, BitVec.le_def] at g1 g2
    exact ⟨g1, g2⟩
  · rintro ⟨h1, h2⟩
    constructor
    · show (48 : UInt32) ≤ c.val
      rw [UInt32.le_def, BitVec.le_def]
      exact h1
    · show c.val ≤ (57 : UInt32)
      rw [UInt32.le_def, BitVec.le_def]
      exact h2

theorem exists_digit {c : Char} (h : c.isDigit = true) :
    ∃ k, k < 10 ∧ c = Nat.digitChar k ∧ c.toNat = 48 + k := by
  obtain ⟨h1, h2⟩ := isDigit_iff_toNat.mp h
  refine ⟨c.toNat - 48, by omega, ?_, by omega⟩
  apply char_eq_of_toNat
  have hk : c.toNat - 48 < 10 := by omega
  have hd : (Nat.digitChar (c.toNat - 48)).toNat = 48 + (c.toNat - 48) := by
    set k := c.toNat - 48 with hkdef
    clear_value k
    interval_cases k <;> decide
  omega

/-- The two-digit decimal numeral for `n < 100`. -/
def twoDigits (n : Nat) : String :=
  String.mk [Nat.digitChar (n / 10), Nat.digitChar (n % 10)]

/-- The three-digit decimal numeral for `n < 1000`. -/
def threeDigits (n : Nat) : String :=
  String.mk [Nat.digitChar (n / 100), Nat.digitChar (n / 10 % 10), Nat.digitChar (n % 10)]

theorem twoDigits_of_digits {c1 c2 : Char}
    (h1 : c1.isDigit = true) (h2 : c2.isDigit = true) :
    ∃ n, n < 100 ∧ String.mk [c1, c2] = twoDigits n := by
  obtain ⟨k1, hk1, he1, _⟩ := exists_digit h1
  obtain ⟨k2, hk2, he2, _⟩ := exists_digit h2
  refine ⟨10 * k1 + k2, by omega, ?_⟩
  unfold twoDigits
  have hdiv : (10 * k1 + k2) / 10 = k1 := by omega
  have hmod : (10 * k1 + k2) % 10 = k2 := by omega
  rw [hdiv, hmod, he1, he2]

/-! ### Length and digit facts about group-only fragments -/

theorem matchAtoms_length {alt : List RAtom} {w w2 : List Char}
    (h : matchAtoms alt w = some w2) : w.length = alt.length + w2.length := by
  induction alt generalizing w with
  | nil =>
    simp only [matchAtoms, Option.some.injEq] at h
    subst h
    simp
  | cons a as ih =>
    cases w with
    | nil => exact absurd h (by simp [matchAtoms])
    | cons c w1 =>
      simp only [matchAtoms] at h
      split at h
      · have := ih h
        simp only [List.length_cons]
        omega
      · exact absurd h (by simp)

theorem group_match_inv {alts : List (List RAtom)} {s : List Char}
    (h : matchItems [.group alts] s = true) :
    ∃ alt ∈ alts, matchAtoms alt s = some [] := by
  simp only [matchItems, List.any_eq_true] at h
  obtain ⟨alt, halt, hm⟩ := h
  refine ⟨alt, halt, ?_⟩
  cases hma : matchAtoms alt s with
  | none => rw [hma] at hm; exact absurd hm (by simp)
  | some s2 =>
    rw [hma] at hm
    simp only [matchItems, List.isEmpty_iff] at hm
    subst hm
    rfl

theorem group_match_length {alts : List (List RAtom)} {s : List Char} {n : Nat}
    (hall : ∀ alt ∈ alts, alt.length = n)
    (h : matchItems [.group alts] s = true) : s.length = n := by
  obtain ⟨alt, halt, hm⟩ := group_match_inv h
  have := matchAtoms_length hm
  simp only [List.length_nil] at this
  rw [this, hall alt halt]
  omega

/-- Atoms that only ever match decimal digits. -/
def digitAtom : RAtom → Bool
  | .digit => true
  | .lit c => c.isDigit
  | .cls lo hi => '0' ≤ lo && hi ≤ '9'

theorem matchAtom_digit {a : RAtom} {c : Char}
    (hd : digitAtom a = true) (hm : matchAtom a c = true) : c.isDigit = true := by
  cases a with
  | digit => exact hm
  | lit d =>
    simp only [matchAtom, decide_eq_true_eq] at hm
    subst hm
    exact hd
  | cls lo hi =>
    simp only [digitAtom, Bool.and_eq_true, decide_eq_true_eq] at hd
    simp only [matchAtom, Bool.and_eq_true, decide_eq_true_eq] at hm
    have g1 := char_le_iff_toNat.mp hd.1
    have g2 := char_le_iff_toNat.mp hd.2
    have g3 := char_le_iff_toNat.mp hm.1
    have g4 := char_le_iff_toNat.mp hm.2
    have h0 : ('0' : Char).toNat = 48 := by decide
    have h9 : ('9' : Char).toNat = 57 := by decide
    rw [isDigit_iff_toNat]
    omega

theorem matchAtoms_digits {alt : List RAtom} {w : List Char}
    (hd : ∀ a ∈ alt, digitAtom a = true)
    (h : matchAtoms alt w = some []) : ∀ c ∈ w, c.isDigit = true := by
  induction alt generalizing w with
  | nil =>
    simp only [matchAtoms, Option.some.injEq] at h
    subst h
    simp
  | cons a as ih =>
    cases w with
    | nil => exact absurd h (by simp [matchAtoms])
    | cons c w1 =>
      simp only [matchAtoms] at h
      split at h
      · rename_i hma
        intro x hx
        rcases List.mem_cons.mp hx with hx | hx
        · subst hx
          exact matchAtom_digit (hd a (by simp)) hma
        · exact ih (fun b hb => hd b (by simp [hb])) h x hx
      · exact absurd h (by simp)

theorem group_match_digits {alts : List (List RAtom)} {s : List Char}
    (hall : ∀ alt ∈ alts, ∀ a ∈ alt, digitAtom a = true)
    (h : matchItems [.group alts] s = true) : ∀ c ∈ s, c.isDigit = true := by
  obtain ⟨alt, halt, hm⟩ := group_match_inv h
  exact matchAtoms_digits (hall alt halt) hm


/-! ### Structure of the translator's output and of the driver loop -/

/-- Every successful translation is an anchored, well-formed fragment. -/
theorem fsv_structure {s r : String} (h : format_string_visitor s = some r) :
    ∃ frag, r = "^" ++ frag ++ "$" ∧ FragOK frag := by
  unfold format_string_visitor at h
  cases hv : validDateTime_p s.toList with
  | none => rw [hv] at h; exact absurd h (by simp)
  | some v =>
    obtain ⟨frag, rest⟩ := v
    rw [hv] at h
    cases rest with
    | nil =>
      simp only [Option.some.injEq] at h
      exact ⟨frag, h.symm, pok_validDateTime _ _ _ hv⟩
    | cons c t => exact absurd h (by simp)

/-- An anchored regex built from a parsed fragment accepts the fragment's
witness. -/
theorem anchored_accepts {frag : String} (h : FragOK frag) :
    ((("^" ++ frag ++ "$").toList.head? = some '^') ∧
      (("^" ++ frag ++ "$").toList.getLast? = some '$')) ∧
    ∃ w, regexAccepts ("^" ++ frag ++ "$") w = true := by
  obtain ⟨items, w, hp, hm⟩ := h
  have htl : ("^" ++ frag ++ "$").toList = '^' :: (frag.toList ++ ['$']) := by
    rw [string_toList_append, string_toList_append]
    rfl
  constructor
  · constructor
    · rw [htl]; rfl
    · rw [htl, List.getLast?_cons, List.getLast?_concat]
      simp
  · refine ⟨String.mk w, ?_⟩
    unfold regexAccepts parseRegexAnchored
    rw [htl]
    simp only [List.getLast?_concat, List.dropLast_concat]
    rw [hp]
    exact hm

/-- The outputs `main` writes: one line per successfully processed input
line, in input order, up to (excluding) the first failing line. -/
theorem main_outputs (lines : List String) :
    (main lines).1 =
      (lines.takeWhile (fun l => (processLine l).isSome)).filterMap processLine := by
  induction lines with
  | nil => rfl
  | cons l t ih =>
    unfold main
    cases hpl : processLine l with
    | none => simp [List.takeWhile_cons, hpl]
    | some out => simp [List.takeWhile_cons, hpl, ih]

/-- A failing line aborts `main`: everything before it is written, the
failing line and everything after it is not. -/
theorem main_abort (pre : List String) (bad : String) (rest : List String)
    (hpre : ∀ l ∈ pre, (processLine l).isSome)
    (hbad : processLine bad = none) :
    main (pre ++ bad :: rest) = (pre.filterMap processLine, false) := by
  induction pre with
  | nil =>
    unfold main
    simp [hbad]
  | cons l t ih =>
    have hl := hpre l (by simp)
    obtain ⟨out, hout⟩ := Option.isSome_iff_exists.mp hl
    have ht := ih (fun x hx => hpre x (by simp [hx]))
    simp only [List.cons_append]
    unfold main
    rw [hout, ht]
    simp [List.filterMap_cons, hout]

/-- The shape of a successful output line: the stripped input line, a
comma, and the regex derived from the line's first comma-field. -/
theorem processLine_shape {l out : String} (h : processLine l = some out) :
    ∃ rgx, format_string_visitor ((pySplit (pyStrip l)).headD "") = some rgx ∧
      out = pyStrip l ++ "," ++ rgx := by
  have h2 : (format_string_visitor ((pySplit (pyStrip l)).headD "")).map
      (fun rgx => pyStrip l ++ "," ++ rgx) = some out := h
  cases hv : format_string_visitor ((pySplit (pyStrip l)).headD "") with
  | none => rw [hv] at h2; exact absurd h2 (by simp)
  | some rgx =>
    rw [hv] at h2
    refine ⟨rgx, rfl, ?_⟩
    have h3 : some (pyStrip l ++ "," ++ rgx) = some out := h2
    exact (Option.some.inj h3).symm


/-- Check that `frag` parses as one group whose alternatives all have length `n`. -/
def groupUniformLen (frag : String) (n : Nat) : Bool :=
  match parseItems frag.toList with
  | some [.group alts] => alts.all (fun alt => alt.length == n)
  | _ => false

/-- Check that `frag` parses as one group whose atoms only match digits. -/
def groupDigitOnly (frag : String) : Bool :=
  match parseItems frag.toList with
  | some [.group alts] => alts.all (fun alt => alt.all digitAtom)
  | _ => false

/-- A single-group fragment with uniform alternative length `n` only
accepts strings of length `n`. -/
theorem fragAccepts_length {frag : String} {n : Nat}
    (hg : groupUniformLen frag n = true) :
    ∀ s, fragAccepts frag s = true → s.length = n := by
  intro s hs
  unfold groupUniformLen at hg
  unfold fragAccepts at hs
  split at hg
  · rename_i alts heq
    rw [heq] at hs
    refine group_match_length ?_ hs
    intro alt halt
    have := List.all_eq_true.mp hg alt halt
    simpa using this
  · exact absurd hg (by simp)

/-- A single-group fragment whose atoms only match digits only accepts
digit strings. -/
theorem fragAccepts_digits {frag : String}
    (hg : groupDigitOnly frag = true) :
    ∀ s, fragAccepts frag s = true → ∀ c ∈ s.toList, c.isDigit = true := by
  intro s hs
  unfold groupDigitOnly at hg
  unfold fragAccepts at hs
  split at hg
  · rename_i alts heq
    rw [heq] at hs
    refine group_match_digits ?_ hs
    intro alt halt
    have := List.all_eq_true.mp hg alt halt
    exact fun a ha => List.all_eq_true.mp this a ha
  · exact absurd hg (by simp)

end FormatStringParser

namespace FormatStringParser

/-! ### The claims -/

/-- C1 (counterexample): the batch driver does not continue past a failing
line.  On the input lines `YYYY/MM/DD` (whose template fails to parse)
followed by `YYYY` (whose template translates successfully), the driver
writes no output at all and aborts, instead of skipping the bad line and
emitting the good one. -/
theorem C1_counterexample :
    format_string_visitor "YYYY" = some "^(\\d\\d\\d\\d)$" ∧
    main ["YYYY/MM/DD", "YYYY"] = ([], false) := by
  constructor
  · decide
  · decide

/-- C1 (amended): a template that matches no grammar alternative raises an
uncaught parse error that aborts the run: every line before the failing
line is processed and written in order, the failing line produces no
output, and no later line is processed. -/
theorem C1_amended (pre : List String) (bad : String) (rest : List String)
    (hpre : ∀ l ∈ pre, (processLine l).isSome)
    (hbad : processLine bad = none) :
    main (pre ++ bad :: rest) = (pre.filterMap processLine, false) :=
  main_abort pre bad rest hpre hbad

/-- Witness for C1: one good line, then the failing `YYYY/MM/DD`, then a
line that is never reached. -/
theorem C1_witness :
    main (["YYYY"] ++ "YYYY/MM/DD" :: ["YYYY-MM"]) =
      (["YYYY,^(\\d\\d\\d\\d)$"], false) := by
  rw [C1_amended ["YYYY"] "YYYY/MM/DD" ["YYYY-MM"] (by decide) (by decide)]
  decide

/-- C2 (counterexample): the derived regex for `YYYYMMDDThh:mm:ssZ` does
not match `20210615T14:30:00Z` with the `Z` dropped — `visit_Z` emits the
matched template text verbatim, so the `Z` is a required literal of the
instance, not an optional one. -/
theorem C2_counterexample :
    format_string_visitor "YYYYMMDDThh:mm:ssZ" =
      some "^(\\d\\d\\d\\d)(01|02|03|04|05|06|07|08|09|10|11|12)(0[1-9]|[1-2]\\d|30|31)T([0-1]\\d|2[0-4]):([0-5]\\d):([0-5]\\d)Z$" ∧
    regexAccepts "^(\\d\\d\\d\\d)(01|02|03|04|05|06|07|08|09|10|11|12)(0[1-9]|[1-2]\\d|30|31)T([0-1]\\d|2[0-4]):([0-5]\\d):([0-5]\\d)Z$"
      "20210615T14:30:00" = false := by
  constructor
  · decide
  · decide

/-- C2 (amended): for the template `YYYYMMDDThh:mm:ssZ`, translation
succeeds and the derived regex matches `20210615T14:30:00Z`, but rejects
both `20210615T14:30:00` (the trailing `Z` of the template is emitted as a
required literal) and `20210615T14:30:00X`. -/
theorem C2_amended :
    format_string_visitor "YYYYMMDDThh:mm:ssZ" =
      some "^(\\d\\d\\d\\d)(01|02|03|04|05|06|07|08|09|10|11|12)(0[1-9]|[1-2]\\d|30|31)T([0-1]\\d|2[0-4]):([0-5]\\d):([0-5]\\d)Z$" ∧
    regexAccepts "^(\\d\\d\\d\\d)(01|02|03|04|05|06|07|08|09|10|11|12)(0[1-9]|[1-2]\\d|30|31)T([0-1]\\d|2[0-4]):([0-5]\\d):([0-5]\\d)Z$"
      "20210615T14:30:00Z" = true ∧
    regexAccepts "^(\\d\\d\\d\\d)(01|02|03|04|05|06|07|08|09|10|11|12)(0[1-9]|[1-2]\\d|30|31)T([0-1]\\d|2[0-4]):([0-5]\\d):([0-5]\\d)Z$"
      "20210615T14:30:00" = false ∧
    regexAccepts "^(\\d\\d\\d\\d)(01|02|03|04|05|06|07|08|09|10|11|12)(0[1-9]|[1-2]\\d|30|31)T([0-1]\\d|2[0-4]):([0-5]\\d):([0-5]\\d)Z$"
      "20210615T14:30:00X" = false := by
  refine ⟨by decide, by decide, by decide, by decide⟩

/-- C3: every successfully translated template yields a regex that starts
with `^` and ends with `$`, and that matches at least one instance string
(the proof constructs it by substituting valid digits for each placeholder
of the template, e.g. `0000` for `YYYY`). -/
theorem C3_anchored_satisfiable (s r : String)
    (h : format_string_visitor s = some r) :
    (r.toList.head? = some '^' ∧ r.toList.getLast? = some '$') ∧
    ∃ w, regexAccepts r w = true := by
  obtain ⟨frag, hr, hok⟩ := fsv_structure h
  subst hr
  exact anchored_accepts hok

/-- Witness for C3 at the template `YYYY`. -/
theorem C3_witness :
    (("^(\\d\\d\\d\\d)$" : String).toList.head? = some '^' ∧
      ("^(\\d\\d\\d\\d)$" : String).toList.getLast? = some '$') ∧
    ∃ w, regexAccepts "^(\\d\\d\\d\\d)$" w = true :=
  C3_anchored_satisfiable "YYYY" "^(\\d\\d\\d\\d)$" (by decide)

set_option maxRecDepth 8000 in
/-- C4: `YYYY-DDD` translates to `^(\d\d\d\d)-[0-3]\d\d$`, whose regex
matches both `2021-366` and the out-of-range `2021-399`; the day-of-year
fragment accepts exactly the three-digit strings `000`–`399` (over-wide
acceptance preserved, not tightened to `001`–`366`). -/
theorem C4_day_of_year :
    format_string_visitor "YYYY-DDD" = some "^(\\d\\d\\d\\d)-[0-3]\\d\\d$" ∧
    regexAccepts "^(\\d\\d\\d\\d)-[0-3]\\d\\d$" "2021-366" = true ∧
    regexAccepts "^(\\d\\d\\d\\d)-[0-3]\\d\\d$" "2021-399" = true ∧
    (∀ n, n < 1000 →
      (fragAccepts visit_dayOfYear (threeDigits n) = true ↔ n ≤ 399)) := by
  refine ⟨by decide, by decide, by decide, by decide⟩

/-- Witness for C4: the day-of-year fragment accepts `399`. -/
theorem C4_witness : fragAccepts visit_dayOfYear (threeDigits 399) = true :=
  (C4_day_of_year.2.2.2 399 (by decide)).mpr (by decide)

set_option maxRecDepth 4000 in
/-- C5: `YYYY-MM-DD` translates to a regex matching `2021-06-15` and
rejecting `2021-6-15`; the month fragment accepts exactly the two-digit
numerals `01`–`12` and the day-of-month fragment exactly `01`–`31`, each
requiring exactly two characters. -/
theorem C5_month_day :
    format_string_visitor "YYYY-MM-DD" =
      some "^(\\d\\d\\d\\d)-(01|02|03|04|05|06|07|08|09|10|11|12)-(0[1-9]|[1-2]\\d|30|31)$" ∧
    regexAccepts "^(\\d\\d\\d\\d)-(01|02|03|04|05|06|07|08|09|10|11|12)-(0[1-9]|[1-2]\\d|30|31)$"
      "2021-06-15" = true ∧
    regexAccepts "^(\\d\\d\\d\\d)-(01|02|03|04|05|06|07|08|09|10|11|12)-(0[1-9]|[1-2]\\d|30|31)$"
      "2021-6-15" = false ∧
    (∀ n, n < 100 → (fragAccepts visit_month (twoDigits n) = true ↔ 1 ≤ n ∧ n ≤ 12)) ∧
    (∀ n, n < 100 → (fragAccepts visit_dayOfMonth (twoDigits n) = true ↔ 1 ≤ n ∧ n ≤ 31)) ∧
    (∀ s, fragAccepts visit_month s = true → s.length = 2) ∧
    (∀ s, fragAccepts visit_dayOfMonth s = true → s.length = 2) := by
  refine ⟨by decide, by decide, by decide, by decide, by decide, ?_, ?_⟩
  · exact fragAccepts_length (n := 2) (by decide)
  · exact fragAccepts_length (n := 2) (by decide)

/-- Witness for C5: the month fragment accepts `06`. -/
theorem C5_witness : fragAccepts visit_month (twoDigits 6) = true :=
  (C5_month_day.2.2.2.1 6 (by decide)).mpr (by decide)


/-- C6: a template containing any character outside the grammar's fixed
vocabulary fails to parse (so `/` as a separator is rejected); the
two-digit year `YY-MM-DD` and `YYYY/MM/DD` fail concretely; and whenever
the committed alternative leaves unconsumed input, the whole parse fails —
no best-effort regex is ever produced. -/
theorem C6_vocabulary :
    (∀ s : String, (∃ c ∈ s.toList, alphaOK c = false) →
      format_string_visitor s = none) ∧
    format_string_visitor "YY-MM-DD" = none ∧
    format_string_visitor "YYYY/MM/DD" = none ∧
    (∀ (s f : String) (rest : List Char),
      validDateTime_p s.toList = some (f, rest) → rest ≠ [] →
      format_string_visitor s = none) := by
  refine ⟨?_, by decide, by decide, ?_⟩
  · intro s hbad
    obtain ⟨c, hc, hbadc⟩ := hbad
    cases hfsv : format_string_visitor s with
    | none => rfl
    | some r =>
      have := fsv_chars_alphaOK hfsv c hc
      rw [this] at hbadc
      exact absurd hbadc (by simp)
  · intro s f rest h hne
    unfold format_string_visitor
    rw [h]
    cases rest with
    | nil => exact absurd rfl hne
    | cons c t => rfl

/-- Witness for C6: `/` is outside the vocabulary. -/
theorem C6_witness : format_string_visitor "Y/Y" = none :=
  C6_vocabulary.1 "Y/Y" ⟨'/', by decide, by decide⟩

/-- C7 (counterexample): the driver does not write the original line
verbatim — it writes the *stripped* line.  For the input line ` YYYY`
(leading space) the written output is `YYYY,^(\d\d\d\d)$`, not
` YYYY,^(\d\d\d\d)$`. -/
theorem C7_counterexample :
    main [" YYYY"] = (["YYYY,^(\\d\\d\\d\\d)$"], true) ∧
    (" YYYY" ++ "," ++ "^(\\d\\d\\d\\d)$" : String) ≠ "YYYY,^(\\d\\d\\d\\d)$" := by
  refine ⟨by decide, by decide⟩

/-- C7 (amended): for every successfully processed line the driver writes
`strip(original_line),derived_regex` — the line with surrounding
whitespace removed, trailing comma-fields preserved — and output lines
appear in input order (up to the first failing line, which ends the
run). -/
theorem C7_amended :
    (∀ lines : List String, (main lines).1 =
      (lines.takeWhile (fun l => (processLine l).isSome)).filterMap processLine) ∧
    (∀ l out : String, processLine l = some out →
      ∃ rgx, format_string_visitor ((pySplit (pyStrip l)).headD "") = some rgx ∧
        out = pyStrip l ++ "," ++ rgx) :=
  ⟨main_outputs, fun _ _ h => processLine_shape h⟩

/-- Witness for C7 on the line ` YYYY,extra ` (surrounding whitespace,
one trailing field). -/
theorem C7_witness :
    ∃ rgx, format_string_visitor ((pySplit (pyStrip " YYYY,extra ")).headD "") = some rgx ∧
      "YYYY,extra,^(\\d\\d\\d\\d)$" = pyStrip " YYYY,extra " ++ "," ++ rgx :=
  C7_amended.2 " YYYY,extra " "YYYY,extra,^(\\d\\d\\d\\d)$" (by decide)

/-- C8: translation is deterministic — two invocations on the same
template yield identical output, and a failing template fails
identically. -/
theorem C8_deterministic : ∀ s t : String, s = t →
    format_string_visitor s = format_string_visitor t ∧
    ((format_string_visitor s).isSome ↔ (format_string_visitor t).isSome) := by
  intro s t h
  subst h
  exact ⟨rfl, Iff.rfl⟩

/-- Witness for C8 at the template `YYYY`. -/
theorem C8_witness :
    format_string_visitor "YYYY" = format_string_visitor "YYYY" ∧
    ((format_string_visitor "YYYY").isSome ↔ (format_string_visitor "YYYY").isSome) :=
  C8_deterministic "YYYY" "YYYY" rfl

/-- C9: the hours fragment `([0-1]\d|2[0-4])` matches exactly the
two-digit strings `00`–`24`: every two-digit numeral `00`–`24` is
accepted, `25`–`99` are rejected, and every accepted string has exactly
two characters and is the two-digit numeral of some `n ≤ 24`. -/
theorem C9_hours :
    (∀ n, n < 100 → (fragAccepts visit_hours (twoDigits n) = true ↔ n ≤ 24)) ∧
    (∀ s, fragAccepts visit_hours s = true → s.length = 2) ∧
    (∀ s, fragAccepts visit_hours s = true → ∃ n, n ≤ 24 ∧ s = twoDigits n) := by
  have h1 : ∀ n, n < 100 → (fragAccepts visit_hours (twoDigits n) = true ↔ n ≤ 24) := by
    decide
  have hlen : ∀ s, fragAccepts visit_hours s = true → s.length = 2 :=
    fragAccepts_length (n := 2) (by decide)
  have hdig : ∀ s, fragAccepts visit_hours s = true → ∀ c ∈ s.toList, c.isDigit = true :=
    fragAccepts_digits (by decide)
  refine ⟨h1, hlen, ?_⟩
  intro s hs
  have hl2 : s.toList.length = 2 := hlen s hs
  obtain ⟨c1, c2, hs2⟩ := List.length_eq_two.mp hl2
  have h1d := hdig s hs c1 (by rw [hs2]; simp)
  have h2d := hdig s hs c2 (by rw [hs2]; simp)
  obtain ⟨m, hm100, heq⟩ := twoDigits_of_digits h1d h2d
  have hsm : s = twoDigits m := by
    rw [← heq]
    exact congrArg String.mk hs2
  rw [hsm] at hs
  exact ⟨m, (h1 m hm100).mp hs, hsm⟩

/-- Witness for C9: the hours fragment accepts `24`. -/
theorem C9_witness : fragAccepts visit_hours (twoDigits 24) = true :=
  (C9_hours.1 24 (by decide)).mpr (by decide)

/-- C10: the `T` terminal accepts zero or one character from `{T} ∪`
whitespace and emits the matched character verbatim; in particular the
space-separated template `YYYY-MM-DD hh:mm:ss` parses successfully, with
the space emitted into the derived regex. -/
theorem C10_T_whitespace :
    (∀ (c : Char) (rest : List Char), (c = 'T' ∨ isPySpace c = true) →
      T_p (c :: rest) = some (String.singleton c, rest)) ∧
    (∀ (c : Char) (rest : List Char), ¬(c = 'T' ∨ isPySpace c = true) →
      T_p (c :: rest) = some ("", c :: rest)) ∧
    T_p [] = some ("", []) ∧
    format_string_visitor "YYYY-MM-DD hh:mm:ss" =
      some "^(\\d\\d\\d\\d)-(01|02|03|04|05|06|07|08|09|10|11|12)-(0[1-9]|[1-2]\\d|30|31) ([0-1]\\d|2[0-4]):([0-5]\\d):([0-5]\\d)$" := by
  refine ⟨?_, ?_, rfl, by decide⟩
  · intro c rest h
    have hb : (c = 'T' || isPySpace c) = true := by
      rcases h with h | h
      · simp [h]
      · simp [h]
    unfold T_p
    simp [hb]
  · intro c rest h
    have hb : (c = 'T' || isPySpace c) = false := by
      rcases not_or.mp h with ⟨h1, h2⟩
      simp [h1, h2]
    unfold T_p
    simp [hb]

/-- Witness for C10: a space is accepted by the `T` terminal and emitted
verbatim. -/
theorem C10_witness : T_p [' '] = some (" ", []) := by
  have := C10_T_whitespace.1 ' ' [] (Or.inr (by decide))
  simpa using this

end FormatStringParser
